import Mathlib

/-!
Shallow embedding of the UI-configuration distribution layer of the
repository: the session-cached config loader/applier in
`src/static/js/ui-config.js` and the admin UI-asset editor surface in the
admin script (`src/unnamed/part_000`).  Pure data is translated directly;
the DOM, `sessionStorage` and the network are explicit inputs; operations
that can throw in JavaScript are modelled with `Except` and the source's
`try`/`catch` blocks appear as explicit handlers.
-/

namespace MarketUI

/-- A JavaScript value, as far as the config layer distinguishes them:
`undefined`, `null`, or a string. -/
inductive JSVal where
  | undef : JSVal
  | null : JSVal
  | str : String → JSVal
deriving DecidableEq

/-- A parsed config snapshot: the JSON object returned by `/api/ui-config`,
a key → value mapping. -/
abbrev Config := List (String × JSVal)

/-- Property read `config[key]`: the stored value, or `undefined` when the
key is absent from the object. -/
def configGet (c : Config) (k : String) : JSVal :=
  match c.find? (fun p => p.1 = k) with
  | some p => p.2
  | none => JSVal.undef

/-- The rendered content of a DOM element: either a literal text node
(set via `textContent`, never interpreted as markup) or parsed markup
(set via `innerHTML`). -/
inductive Rendered where
  | text : String → Rendered
  | markup : String → Rendered
deriving DecidableEq

/-- A display target: an element matched by `[data-ui-key]`, with the
attributes the applier reads and writes.  `uiTarget` is
`el.dataset.uiTarget` (`none` when the `data-ui-target` attribute is
absent); `typeAttr` is `el.type`; `loadingAttr` is the `loading`
attribute. -/
structure Element where
  tagName : String
  typeAttr : String
  uiKey : String
  uiTarget : Option String
  src : String
  loadingAttr : Option String
  placeholder : String
  content : Rendered
deriving DecidableEq

/-- The per-element body of `applyConfig`'s `forEach`
(`src/static/js/ui-config.js:48-61`): skip `undefined`/`null` values,
otherwise dispatch on `IMG` / non-submit `INPUT` / `data-ui-target="html"`
/ default `textContent`. -/
def applyToElement (cfg : Config) (el : Element) : Element :=
  match configGet cfg el.uiKey with
  | JSVal.undef => el
  | JSVal.null => el
  | JSVal.str value =>
    if el.tagName = "IMG" then
      { el with src := value, loadingAttr := some "lazy" }
    else if el.tagName = "INPUT" ∧ el.typeAttr ≠ "submit" then
      { el with placeholder := value }
    else if el.uiTarget = some "html" then
      { el with content := Rendered.markup value }
    else
      { el with content := Rendered.text value }

/-- `applyConfig` over the list of discovered display targets
(`document.querySelectorAll` result, in document order). -/
def applyConfig (cfg : Config) (els : List Element) : List Element :=
  els.map (applyToElement cfg)

/-- The application mode of a display target, as the source infers it from
the element's native kind: `IMG` → image, non-submit `INPUT` →
placeholder, `data-ui-target="html"` → raw_html, otherwise text. -/
inductive Mode where
  | image : Mode
  | placeholder : Mode
  | raw_html : Mode
  | text : Mode
deriving DecidableEq

/-- Derived application mode, mirroring the dispatch order of
`applyConfig` exactly. -/
def applicationMode (el : Element) : Mode :=
  if el.tagName = "IMG" then Mode.image
  else if el.tagName = "INPUT" ∧ el.typeAttr ≠ "submit" then Mode.placeholder
  else if el.uiTarget = some "html" then Mode.raw_html
  else Mode.text

/-- `CACHE_TTL = 60 * 1000` (`src/static/js/ui-config.js:11`),
in milliseconds. -/
def CACHE_TTL : Int := 60 * 1000

/-- The parsed form of the record stored under the `em_ui_config` session
key: `{ ts: Date.now(), data: config }`. -/
structure CacheEntry where
  ts : Int
  data : Config
deriving DecidableEq

/-- Session storage as the loader sees it: `working = false` models
storage being unavailable or throwing (quota exceeded, disabled);
`entry` is the record stored under `em_ui_config`, if any. -/
structure Storage where
  working : Bool
  entry : Option CacheEntry
deriving DecidableEq

/-- `sessionStorage.getItem` composed with `JSON.parse`: throws when
storage is unavailable. -/
def storGetItem (s : Storage) : Except Unit (Option CacheEntry) :=
  if s.working then Except.ok s.entry else Except.error ()

/-- `sessionStorage.setItem` of the serialized entry: throws when storage
is unavailable or over quota. -/
def storSetItem (s : Storage) (e : CacheEntry) : Except Unit Storage :=
  if s.working then Except.ok { s with entry := some e } else Except.error ()

/-- The cache-read step of `loadUIConfig`
(`src/static/js/ui-config.js:15-24`): the `try` block reads and parses the
entry and tests `Date.now() - ts < CACHE_TTL`; any throw is swallowed by
`catch (e) \x7b /* ignore */ \x7d` and falls through as a miss (`none`). -/
def cacheGet (now : Int) (s : Storage) : Option Config :=
  match storGetItem s with
  | Except.error _ => none
  | Except.ok none => none
  | Except.ok (some e) => if now - e.ts < CACHE_TTL then some e.data else none

/-- The cache-write step of `loadUIConfig`
(`src/static/js/ui-config.js:32-37`): `setItem` of `{ts: Date.now(),
data}`; quota errors are swallowed, leaving storage unchanged. -/
def cachePut (now : Int) (s : Storage) (cfg : Config) : Storage :=
  match storSetItem s { ts := now, data := cfg } with
  | Except.error _ => s
  | Except.ok s2 => s2

/-- Outcome of `fetch('/api/ui-config')` followed by `res.json()`:
a thrown network error, a non-ok status, or a parsed config. -/
inductive FetchResult where
  | netError : FetchResult
  | httpError : FetchResult
  | success : Config → FetchResult
deriving DecidableEq

/-- The observable outcome of one `loadUIConfig()` call: the storage
afterwards, the argument of the (at most one) `applyConfig` call (`none`
when `applyConfig` was never invoked), the display targets afterwards, and
the `uiConfigLoaded` events dispatched. -/
structure LoadResult where
  storage : Storage
  applied : Option Config
  elements : List Element
  events : List Config
deriving DecidableEq

/-- `loadUIConfig` (`src/static/js/ui-config.js:13-44`).  `now1` is the
clock at the cache check, `now2` the clock at the cache write (an `await`
separates them).  Cache hit: apply and return.  Miss: fetch; on network
error or `!res.ok` do nothing further; on success cache then apply.  The
function is total: every throw of a sub-operation is caught by one of the
source's `try`/`catch` blocks, so no error escapes to the caller. -/
def loadUIConfig (now1 now2 : Int) (s : Storage) (fetch : FetchResult)
    (els : List Element) : LoadResult :=
  match cacheGet now1 s with
  | some data =>
    { storage := s, applied := some data,
      elements := applyConfig data els, events := [data] }
  | none =>
    match fetch with
    | FetchResult.netError =>
      { storage := s, applied := none, elements := els, events := [] }
    | FetchResult.httpError =>
      { storage := s, applied := none, elements := els, events := [] }
    | FetchResult.success cfg =>
      { storage := cachePut now2 s cfg, applied := some cfg,
        elements := applyConfig cfg els, events := [cfg] }

/-- The ordered actions a single `loadUIConfig()` call performs, for
stating intra-call ordering properties. -/
inductive LoadEvent where
  | cacheCheck : LoadEvent
  | fetchStart : LoadEvent
  | cachePutEv : Config → LoadEvent
  | applyCall : Config → LoadEvent
deriving DecidableEq

/-- The action trace of `loadUIConfig`, in source order: the cache check
always comes first; on a miss the fetch starts; on fetch success the
snapshot is written to the cache (lines 32-37) strictly before
`applyConfig` is called (line 39). -/
def loadTrace (now1 : Int) (s : Storage) (fetch : FetchResult) :
    List LoadEvent :=
  match cacheGet now1 s with
  | some data => [LoadEvent.cacheCheck, LoadEvent.applyCall data]
  | none =>
    match fetch with
    | FetchResult.netError => [LoadEvent.cacheCheck, LoadEvent.fetchStart]
    | FetchResult.httpError => [LoadEvent.cacheCheck, LoadEvent.fetchStart]
    | FetchResult.success cfg =>
      [LoadEvent.cacheCheck, LoadEvent.fetchStart,
       LoadEvent.cachePutEv cfg, LoadEvent.applyCall cfg]

/-- A DOM element as the admin editor reads it: its `id`, tag name, and
`value` property.  Reading `.value` on an element that has none (e.g. a
`DIV`) yields `undefined`. -/
structure DomElem where
  id : String
  tag : String
  value : JSVal
deriving DecidableEq

/-- `document.getElementById`: the first element with the given id, in
document order. -/
def getElementById (doc : List DomElem) (i : String) : Option DomElem :=
  doc.find? (fun el => el.id = i)

/-- Whether the first character list is a prefix of the second. -/
def isPrefixCL : List Char → List Char → Bool
  | [], _ => true
  | _ :: _, [] => false
  | p :: ps, c :: cs => p == c && isPrefixCL ps cs

/-- `startsWith` on strings, via their character lists. -/
def startsWithStr (s p : String) : Bool := isPrefixCL p.data s.data

/-- Split around the leftmost occurrence of `pat`: the characters before
it and the characters after it, or `none` when `pat` does not occur. -/
def splitFirst (pat : List Char) : List Char → Option (List Char × List Char)
  | [] => none
  | c :: cs =>
    if isPrefixCL pat (c :: cs) then some ([], (c :: cs).drop pat.length)
    else
      match splitFirst pat cs with
      | some (pre, post) => some (c :: pre, post)
      | none => none

/-- JavaScript `String.prototype.replace` with a string pattern: replaces
only the leftmost occurrence of `pat`. -/
def replaceFirst (s pat repl : String) : String :=
  match splitFirst pat.data s.data with
  | some (pre, post) => ⟨pre ++ repl.data ++ post⟩
  | none => s

/-- JavaScript `String.prototype.includes` for a non-empty needle. -/
def includesStr (s sub : String) : Bool :=
  (splitFirst sub.data s.data).isSome

/-- The user-visible notifications `showAdminToast` can emit from the
UI-asset save paths: the fixed single-save success message, the batch
success message carrying the reported count, or an error toast. -/
inductive Toast where
  | savedOne : Toast
  | savedMany : Nat → Toast
  | failure : Toast
deriving DecidableEq

/-- Observable outcome of a save operation: the cache record under
`em_ui_config` afterwards, how many times `sessionStorage.removeItem`
was called on it, and the toasts shown, in order. -/
structure SaveOutcome where
  cache : Option CacheEntry
  invalidations : Nat
  toasts : List Toast
deriving DecidableEq

/-- `saveUIAsset(key)` (admin script, lines 348-359), with session storage
available: look up the input `uia-${key}` (silently return when absent);
`PUT` its value; on success toast `Saved! ...` and remove the
`em_ui_config` record once; on failure toast the error and touch
nothing.  `writeOk` is the outcome of the `PUT`. -/
def saveUIAsset (doc : List DomElem) (key : String) (writeOk : Bool)
    (cache : Option CacheEntry) : SaveOutcome :=
  match getElementById doc ("uia-" ++ key) with
  | none => { cache := cache, invalidations := 0, toasts := [] }
  | some _input =>
    if writeOk then
      { cache := none, invalidations := 1, toasts := [Toast.savedOne] }
    else
      { cache := cache, invalidations := 0, toasts := [Toast.failure] }

/-- The update-collection loop of `saveAllUIAssets` (admin script, lines
362-367): every element matched by `[id^="uia-"]` (any tag), key derived
by `id.replace('uia-', '')`, entries whose key contains `preview`
dropped. -/
def collectUpdates (doc : List DomElem) : List (String × JSVal) :=
  (doc.filter (fun el => startsWithStr el.id "uia-")).filterMap (fun el =>
    let key := replaceFirst el.id "uia-" ""
    if includesStr key "preview" then none else some (key, el.value))

/-- `saveAllUIAssets()` (admin script, lines 361-375), with session
storage available: batch-`PUT` the collected updates; on success toast
`Saved ${updates.length} UI assets! ...` and remove the `em_ui_config`
record once; on failure toast the error and touch nothing. -/
def saveAllUIAssets (doc : List DomElem) (writeOk : Bool)
    (cache : Option CacheEntry) : SaveOutcome :=
  if writeOk then
    { cache := none, invalidations := 1,
      toasts := [Toast.savedMany (collectUpdates doc).length] }
  else
    { cache := cache, invalidations := 0, toasts := [Toast.failure] }

/-- One UI asset as returned by `GET /admin/ui-assets`. -/
structure Asset where
  key : String
  sectionName : String
  label : String
  description : Option String
  asset_type : String
  value : JSVal
deriving DecidableEq

/-- One step of the grouping loop of `loadAdminUIAssets` (admin script,
lines 312-316): `if (!grouped[a.section]) grouped[a.section] = [];
grouped[a.section].push(a)` — appends to an existing section's array, or
appends a fresh singleton property at the end. -/
def upsertAsset (acc : List (String × List Asset)) (a : Asset) :
    List (String × List Asset) :=
  if acc.any (fun p => p.1 = a.sectionName) then
    acc.map (fun p =>
      if p.1 = a.sectionName then (p.1, p.2 ++ [a]) else p)
  else
    acc ++ [(a.sectionName, [a])]

/-- The grouping `forEach` folded left over the Store's asset list, with
the properties of `grouped` kept in creation order. -/
def groupAssetsAux (acc : List (String × List Asset)) :
    List Asset → List (String × List Asset)
  | [] => acc
  | a :: rest => groupAssetsAux (upsertAsset acc a) rest

/-- The `grouped` object built by `loadAdminUIAssets`, as an association
list in property-creation order. -/
def groupAssets (assets : List Asset) : List (String × List Asset) :=
  groupAssetsAux [] assets

/-- Decimal digit value of a character, if it is a digit. -/
def digitVal (c : Char) : Option Nat :=
  if 48 ≤ c.toNat ∧ c.toNat ≤ 57 then some (c.toNat - 48) else none

/-- Left-to-right decimal accumulation over a character list. -/
def parseNatAux (acc : Nat) : List Char → Option Nat
  | [] => some acc
  | c :: cs =>
    match digitVal c with
    | some d => parseNatAux (acc * 10 + d) cs
    | none => none

/-- Parse a non-empty all-digit string as a natural number. -/
def toNatStr (s : String) : Option Nat :=
  match s.data with
  | [] => none
  | l => parseNatAux 0 l

/-- Whether a string is an ECMAScript array index: the canonical decimal
form (no leading zeros) of some `n` with `0 ≤ n < 2^32 - 1`.  Own
properties with such keys enumerate first, in ascending numeric order. -/
def isArrayIndex (s : String) : Bool :=
  match toNatStr s with
  | some n =>
    decide (n < 4294967295) &&
      (match s.data with
       | [] => false
       | c :: cs => c != '0' || cs.isEmpty)
  | none => false

/-- Numeric value of an array-index key (0 when not numeric). -/
def keyNum (s : String) : Nat := (toNatStr s).getD 0

/-- Insert an entry into a list sorted ascending by numeric key value. -/
def insertIndexSorted (p : String × List Asset) :
    List (String × List Asset) → List (String × List Asset)
  | [] => [p]
  | q :: qs =>
    if keyNum p.1 ≤ keyNum q.1 then p :: q :: qs
    else q :: insertIndexSorted p qs

/-- Insertion sort of the array-index-keyed entries, ascending. -/
def sortIndexKeys : List (String × List Asset) →
    List (String × List Asset)
  | [] => []
  | p :: ps => insertIndexSorted p (sortIndexKeys ps)

/-- `Object.entries` order on an object whose properties were created in
the given list order: array-index keys first in ascending numeric order,
then the remaining string keys in creation order
(ECMAScript OrdinaryOwnPropertyKeys). -/
def jsObjectEntries (obj : List (String × List Asset)) :
    List (String × List Asset) :=
  sortIndexKeys (obj.filter (fun p => isArrayIndex p.1)) ++
    obj.filter (fun p => !isArrayIndex p.1)

/-- The section → assets sequence `loadAdminUIAssets` iterates with
`for (const [section, assets] of Object.entries(grouped))`
(admin script, lines 310-319). -/
def loadAdminUIAssetsGroups (assets : List Asset) :
    List (String × List Asset) :=
  jsObjectEntries (groupAssets assets)

/-- Spec-side comparator for C8's wording: the sections of the Store's
response in insertion order of each section's first occurrence. -/
def firstOccAux (acc : List String) : List String → List String
  | [] => acc
  | s :: rest => firstOccAux (if s ∈ acc then acc else acc ++ [s]) rest

/-- First-occurrence order of a list of section names. -/
def firstOccurrences (l : List String) : List String := firstOccAux [] l

/-- Display target bound to `greeting` in default text mode, for the C4
example. -/
def elGreeting : Element :=
  { tagName := "SPAN", typeAttr := "", uiKey := "greeting",
    uiTarget := none, src := "", loadingAttr := none, placeholder := "",
    content := Rendered.text "static greeting" }

/-- Display target bound to `greeting` with `data-ui-target="html"`, for
the C4 raw-html example. -/
def elGreetingHtml : Element :=
  { tagName := "DIV", typeAttr := "", uiKey := "greeting",
    uiTarget := some "html", src := "", loadingAttr := none,
    placeholder := "", content := Rendered.text "static greeting" }

/-- Display target bound to `banner_title`, for the C6 example. -/
def elBanner : Element :=
  { tagName := "H1", typeAttr := "", uiKey := "banner_title",
    uiTarget := none, src := "", loadingAttr := none, placeholder := "",
    content := Rendered.text "static banner" }

/-- An `IMG` display target, for the C9 example. -/
def elLogo : Element :=
  { tagName := "IMG", typeAttr := "", uiKey := "logo_url",
    uiTarget := none, src := "old.png", loadingAttr := none,
    placeholder := "", content := Rendered.text "" }

/-- A fragment of the editor's own rendered document for one text asset
`greeting`: the row container `DIV` with id `uia-row-greeting` (admin
script, line 323) and the text input with id `uia-greeting`
(line 334). -/
def editorDocGreeting : List DomElem :=
  [{ id := "uia-row-greeting", tag := "DIV", value := JSVal.undef },
   { id := "uia-greeting", tag := "INPUT", value := JSVal.str "Hi" }]

/-- Unfolding of the applier's per-element step when the looked-up value
is a string: the four-way dispatch of `applyConfig`. -/
lemma applyToElement_str {cfg : Config} {el : Element} {v : String}
    (hv : configGet cfg el.uiKey = JSVal.str v) :
    applyToElement cfg el =
      if el.tagName = "IMG" then
        { el with src := v, loadingAttr := some "lazy" }
      else if el.tagName = "INPUT" ∧ el.typeAttr ≠ "submit" then
        { el with placeholder := v }
      else if el.uiTarget = some "html" then
        { el with content := Rendered.markup v }
      else
        { el with content := Rendered.text v } := by
  unfold applyToElement
  rw [hv]

/-- In a list whose head is the cache check, every decomposition around a
`fetchStart` puts the cache check in the prefix. -/
lemma head_cacheCheck_before_fetch {t : List LoadEvent}
    (hhead : t.head? = some LoadEvent.cacheCheck) :
    ∀ pre post, t = pre ++ LoadEvent.fetchStart :: post →
      LoadEvent.cacheCheck ∈ pre := by
  intro pre post h
  subst h
  cases pre with
  | nil => simp at hhead
  | cons a pre' =>
    simp only [List.cons_append, List.head?_cons, Option.some.injEq] at hhead
    subst hhead
    exact List.mem_cons_self _ _

/-- Claim C1: with session storage available, the cache-write step stamps
`fetched_at` with the current clock, and the cache-read step returns the
stored snapshot exactly when the read happens strictly before
`fetched_at + CACHE_TTL` (TTL = 60 000 ms); at or after that instant, or
with no entry stored, it reports a miss. -/
theorem cache_freshness (T now : Int) (snap : Config)
    (entry0 : Option CacheEntry) :
    cachePut T ⟨true, entry0⟩ snap = ⟨true, some ⟨T, snap⟩⟩ ∧
    (now < T + CACHE_TTL →
      cacheGet now ⟨true, some ⟨T, snap⟩⟩ = some snap) ∧
    (T + CACHE_TTL ≤ now →
      cacheGet now ⟨true, some ⟨T, snap⟩⟩ = none) ∧
    cacheGet now ⟨true, none⟩ = none := by
  refine ⟨rfl, fun h => ?_, fun h => ?_, rfl⟩
  · simp only [CACHE_TTL] at h
    simp only [cacheGet, storGetItem, if_true]
    rw [if_pos (by simp only [CACHE_TTL]; omega)]
  · simp only [CACHE_TTL] at h
    simp only [cacheGet, storGetItem, if_true]
    rw [if_neg (by simp only [CACHE_TTL]; omega)]

/-- Witness for C1 at the TTL boundary: a snapshot cached at time 0 is
served at 59 999 ms and missed at exactly 60 000 ms. -/
theorem cache_freshness_witness :
    cacheGet 59999 ⟨true, some ⟨0, [("k", JSVal.str "v")]⟩⟩ =
      some [("k", JSVal.str "v")] ∧
    cacheGet 60000 ⟨true, some ⟨0, [("k", JSVal.str "v")]⟩⟩ = none :=
  ⟨(cache_freshness 0 59999 [("k", JSVal.str "v")] none).2.1 (by decide),
   (cache_freshness 0 60000 [("k", JSVal.str "v")] none).2.2.1 (by decide)⟩

/-- Claim C2: when the Store write of `saveUIAsset` (saveOne) or
`saveAllUIAssets` (saveMany) succeeds, the `em_ui_config` record is
removed exactly once and a success toast is shown, so any later cache
read misses and the next load fetches fresh; when the write fails, only a
failure toast is shown and the cache record is untouched. -/
theorem save_invalidate (doc : List DomElem) (key : String)
    (cache : Option CacheEntry) :
    ((getElementById doc ("uia-" ++ key)).isSome = true →
      saveUIAsset doc key true cache =
        { cache := none, invalidations := 1, toasts := [Toast.savedOne] } ∧
      (∀ (now : Int) (w : Bool),
        cacheGet now ⟨w, (saveUIAsset doc key true cache).cache⟩ = none) ∧
      saveUIAsset doc key false cache =
        { cache := cache, invalidations := 0,
          toasts := [Toast.failure] }) ∧
    saveAllUIAssets doc true cache =
      { cache := none, invalidations := 1,
        toasts := [Toast.savedMany (collectUpdates doc).length] } ∧
    (∀ (now : Int) (w : Bool),
      cacheGet now ⟨w, (saveAllUIAssets doc true cache).cache⟩ = none) ∧
    saveAllUIAssets doc false cache =
      { cache := cache, invalidations := 0, toasts := [Toast.failure] } := by
  have hget : ∀ (now : Int) (w : Bool), cacheGet now ⟨w, none⟩ = none := by
    intro now w; cases w <;> rfl
  refine ⟨fun h => ?_, rfl, fun now w => hget now w, rfl⟩
  obtain ⟨el, hel⟩ := Option.isSome_iff_exists.mp h
  refine ⟨?_, fun now w => ?_, ?_⟩ <;> simp only [saveUIAsset, hel]
  · rfl
  · exact hget now w
  · rfl

/-- Witness for C2 on the editor's own greeting fragment: a successful
single save invalidates and a later cache read misses. -/
theorem save_invalidate_witness :
    saveUIAsset editorDocGreeting "greeting" true (some ⟨0, []⟩) =
      { cache := none, invalidations := 1, toasts := [Toast.savedOne] } ∧
    cacheGet 0 ⟨true,
      (saveUIAsset editorDocGreeting "greeting" true (some ⟨0, []⟩)).cache⟩ =
      none :=
  ⟨((save_invalidate editorDocGreeting "greeting" (some ⟨0, []⟩)).1
      (by decide)).1,
   ((save_invalidate editorDocGreeting "greeting" (some ⟨0, []⟩)).1
      (by decide)).2.1 0 true⟩

/-- Claim C3: when the cache misses and the Store fetch fails (network
error or non-ok status), `loadUIConfig` applies nothing, fires no event,
leaves the cache unpopulated, returns (totally, raising nothing), and
every display target keeps its content. -/
theorem silent_read_degradation (now1 now2 : Int) (s : Storage)
    (f : FetchResult) (els : List Element)
    (hmiss : cacheGet now1 s = none)
    (hfail : f = FetchResult.netError ∨ f = FetchResult.httpError) :
    loadUIConfig now1 now2 s f els =
      { storage := s, applied := none, elements := els, events := [] } := by
  unfold loadUIConfig
  rw [hmiss]
  rcases hfail with rfl | rfl <;> rfl

/-- Witness for C3: empty cache plus a network error leaves the banner
target untouched and applies nothing. -/
theorem silent_read_degradation_witness :
    loadUIConfig 0 0 ⟨true, none⟩ FetchResult.netError [elBanner] =
      { storage := ⟨true, none⟩, applied := none,
        elements := [elBanner], events := [] } :=
  silent_read_degradation 0 0 ⟨true, none⟩ FetchResult.netError [elBanner]
    rfl (Or.inl rfl)

/-- Claim C4: for a target whose key carries a string value, application
dispatches strictly by the derived mode: image sets `src`, placeholder
sets `placeholder`, raw_html replaces the content with parsed markup, and
text (the default) replaces the content with a literal text node, never
markup. -/
theorem type_aware_application (cfg : Config) (el : Element) (v : String)
    (hv : configGet cfg el.uiKey = JSVal.str v) :
    (applicationMode el = Mode.image →
      applyToElement cfg el =
        { el with src := v, loadingAttr := some "lazy" }) ∧
    (applicationMode el = Mode.placeholder →
      applyToElement cfg el = { el with placeholder := v }) ∧
    (applicationMode el = Mode.raw_html →
      applyToElement cfg el = { el with content := Rendered.markup v }) ∧
    (applicationMode el = Mode.text →
      applyToElement cfg el = { el with content := Rendered.text v }) := by
  unfold applicationMode
  rw [applyToElement_str hv]
  split_ifs <;> simp_all

/-- Witness for C4 on the spec's examples: snapshot value `Hi` lands as a
literal text node, and `<b>Hi</b>` on an html-target lands as markup. -/
theorem type_aware_application_witness :
    applyToElement [("greeting", JSVal.str "Hi")] elGreeting =
      { elGreeting with content := Rendered.text "Hi" } ∧
    applyToElement [("greeting", JSVal.str "<b>Hi</b>")] elGreetingHtml =
      { elGreetingHtml with content := Rendered.markup "<b>Hi</b>" } :=
  ⟨(type_aware_application [("greeting", JSVal.str "Hi")] elGreeting
      "Hi" rfl).2.2.2 rfl,
   (type_aware_application [("greeting", JSVal.str "<b>Hi</b>")]
      elGreetingHtml "<b>Hi</b>" rfl).2.2.1 rfl⟩

/-- Claim C5: with session storage unavailable or throwing, the cache
read degrades to a miss and the cache write to a no-op (both are total,
mirroring the source's `try`/`catch`), and `loadUIConfig` still completes
by falling through to the network fetch every time. -/
theorem storage_failure_absorbed (now1 now2 : Int)
    (entry0 : Option CacheEntry) (cfg : Config) (els : List Element)
    (f : FetchResult) :
    cacheGet now1 ⟨false, entry0⟩ = none ∧
    cachePut now2 ⟨false, entry0⟩ cfg = ⟨false, entry0⟩ ∧
    loadUIConfig now1 now2 ⟨false, entry0⟩ (FetchResult.success cfg) els =
      { storage := ⟨false, entry0⟩, applied := some cfg,
        elements := applyConfig cfg els, events := [cfg] } ∧
    (f = FetchResult.netError ∨ f = FetchResult.httpError →
      loadUIConfig now1 now2 ⟨false, entry0⟩ f els =
        { storage := ⟨false, entry0⟩, applied := none,
          elements := els, events := [] }) := by
  refine ⟨rfl, rfl, rfl, fun h => ?_⟩
  rcases h with rfl | rfl <;> rfl

/-- Witness for C5: with broken storage the read misses and a successful
fetch is still cached-through (as a no-op) and applied. -/
theorem storage_failure_witness :
    cacheGet 0 ⟨false, none⟩ = none ∧
    loadUIConfig 0 0 ⟨false, none⟩
        (FetchResult.success [("k", JSVal.str "v")]) [] =
      { storage := ⟨false, none⟩, applied := some [("k", JSVal.str "v")],
        elements := [], events := [[("k", JSVal.str "v")]] } ∧
    loadUIConfig 0 0 ⟨false, none⟩ FetchResult.netError [] =
      { storage := ⟨false, none⟩, applied := none,
        elements := [], events := [] } :=
  ⟨(storage_failure_absorbed 0 0 none [("k", JSVal.str "v")] []
      FetchResult.netError).1,
   (storage_failure_absorbed 0 0 none [("k", JSVal.str "v")] []
      FetchResult.netError).2.2.1,
   (storage_failure_absorbed 0 0 none [("k", JSVal.str "v")] []
      FetchResult.netError).2.2.2 (Or.inl rfl)⟩

/-- Claim C6: a display target whose key maps to `undefined` (absent) or
`null` in the snapshot is left completely unmodified by application. -/
theorem missing_key_fallback (cfg : Config) (el : Element)
    (h : configGet cfg el.uiKey = JSVal.undef ∨
      configGet cfg el.uiKey = JSVal.null) :
    applyToElement cfg el = el := by
  unfold applyToElement
  rcases h with h | h <;> rw [h]

/-- Witness for C6: with `banner_title` absent from the snapshot, the
banner target keeps its static content. -/
theorem missing_key_fallback_witness :
    applyToElement [] elBanner = elBanner :=
  missing_key_fallback [] elBanner (Or.inl rfl)

/-- Claim C7: in every `loadUIConfig` trace the cache check is the first
action (hence strictly precedes any fetch), every `fetchStart` is
preceded by the cache check, and whenever the fetched snapshot is written
to the cache, every apply happens strictly after that write. -/
theorem intra_load_ordering (now1 : Int) (s : Storage) (f : FetchResult) :
    (loadTrace now1 s f).head? = some LoadEvent.cacheCheck ∧
    (∀ pre post,
      loadTrace now1 s f = pre ++ LoadEvent.fetchStart :: post →
      LoadEvent.cacheCheck ∈ pre) ∧
    (∀ cfg, LoadEvent.cachePutEv cfg ∈ loadTrace now1 s f →
      ∃ pre post,
        loadTrace now1 s f = pre ++ LoadEvent.cachePutEv cfg :: post ∧
        LoadEvent.cacheCheck ∈ pre ∧ LoadEvent.fetchStart ∈ pre ∧
        ∀ c, LoadEvent.applyCall c ∈ loadTrace now1 s f →
          LoadEvent.applyCall c ∈ post) := by
  have hhead : (loadTrace now1 s f).head? = some LoadEvent.cacheCheck := by
    unfold loadTrace
    cases cacheGet now1 s with
    | some data => rfl
    | none => cases f <;> rfl
  refine ⟨hhead, head_cacheCheck_before_fetch hhead, ?_⟩
  intro cfg hmem
  unfold loadTrace at hmem ⊢
  cases hc : cacheGet now1 s with
  | some data => rw [hc] at hmem; simp at hmem
  | none =>
    cases f with
    | netError => rw [hc] at hmem; simp at hmem
    | httpError => rw [hc] at hmem; simp at hmem
    | success c =>
      rw [hc] at hmem
      simp only [List.mem_cons, List.not_mem_nil, or_false,
        reduceCtorEq, false_or, LoadEvent.cachePutEv.injEq] at hmem
      subst hmem
      refine ⟨[LoadEvent.cacheCheck, LoadEvent.fetchStart],
        [LoadEvent.applyCall cfg], rfl, by simp, by simp, ?_⟩
      intro c' h'
      simp only [List.mem_cons, List.not_mem_nil, or_false,
        reduceCtorEq, false_or, LoadEvent.applyCall.injEq] at h'
      simp [h']

/-- Witness for C7 on a concrete miss-then-success load: the cache write
of the fetched snapshot splits the trace with every apply after it. -/
theorem intra_load_witness :
    ∃ pre post,
      loadTrace 0 ⟨true, none⟩
          (FetchResult.success [("k", JSVal.str "v")]) =
        pre ++ LoadEvent.cachePutEv [("k", JSVal.str "v")] :: post ∧
      LoadEvent.cacheCheck ∈ pre ∧ LoadEvent.fetchStart ∈ pre ∧
      ∀ c, LoadEvent.applyCall c ∈
          loadTrace 0 ⟨true, none⟩
            (FetchResult.success [("k", JSVal.str "v")]) →
        LoadEvent.applyCall c ∈ post :=
  (intra_load_ordering 0 ⟨true, none⟩
      (FetchResult.success [("k", JSVal.str "v")])).2.2
    [("k", JSVal.str "v")] (by decide)

/-- Claim C9: an `IMG` target with a present string value gets two
attribute writes — `src` takes the value and `loading` becomes `lazy` —
and no non-`IMG` branch ever touches the `loading` attribute. -/
theorem image_lazy_loading (cfg : Config) (el : Element) (v : String) :
    (el.tagName = "IMG" → configGet cfg el.uiKey = JSVal.str v →
      applyToElement cfg el =
        { el with src := v, loadingAttr := some "lazy" }) ∧
    (el.tagName ≠ "IMG" →
      (applyToElement cfg el).loadingAttr = el.loadingAttr) := by
  constructor
  · intro ht hv
    rw [applyToElement_str hv, if_pos ht]
  · intro ht
    cases hc : configGet cfg el.uiKey with
    | undef => unfold applyToElement; rw [hc]
    | null => unfold applyToElement; rw [hc]
    | str v' =>
      rw [applyToElement_str hc, if_neg ht]
      split
      · rfl
      · split <;> rfl

/-- Witness for C9: applying `logo_url` to the `IMG` target sets the new
source and `loading = lazy`. -/
theorem image_lazy_witness :
    applyToElement [("logo_url", JSVal.str "new.png")] elLogo =
      { elLogo with src := "new.png", loadingAttr := some "lazy" } :=
  (image_lazy_loading [("logo_url", JSVal.str "new.png")] elLogo
    "new.png").1 rfl rfl

/-- Elements of an `insertIndexSorted` result come from the inserted
entry or the original list. -/
lemma mem_insertIndexSorted {q p : String × List Asset}
    {l : List (String × List Asset)} (h : q ∈ insertIndexSorted p l) :
    q = p ∨ q ∈ l := by
  induction l with
  | nil =>
    unfold insertIndexSorted at h
    simp at h
    exact Or.inl h
  | cons r rs ih =>
    unfold insertIndexSorted at h
    split at h
    · rcases List.mem_cons.mp h with h1 | h2
      · exact Or.inl h1
      · exact Or.inr h2
    · rcases List.mem_cons.mp h with h1 | h2
      · exact Or.inr (h1 ▸ List.mem_cons_self _ _)
      · rcases ih h2 with h3 | h4
        · exact Or.inl h3
        · exact Or.inr (List.mem_cons_of_mem _ h4)

/-- Elements of a `sortIndexKeys` result come from the original list. -/
lemma mem_sortIndexKeys {q : String × List Asset}
    {l : List (String × List Asset)} (h : q ∈ sortIndexKeys l) : q ∈ l := by
  induction l with
  | nil => simp [sortIndexKeys] at h
  | cons p ps ih =>
    unfold sortIndexKeys at h
    rcases mem_insertIndexSorted h with rfl | h2
    · exact List.mem_cons_self _ _
    · exact List.mem_cons_of_mem _ (ih h2)

/-- `Object.entries` only reorders: its elements are the object's own
entries. -/
lemma mem_jsObjectEntries {q : String × List Asset}
    {obj : List (String × List Asset)} (h : q ∈ jsObjectEntries obj) :
    q ∈ obj := by
  unfold jsObjectEntries at h
  rcases List.mem_append.mp h with h1 | h2
  · exact List.mem_of_mem_filter (mem_sortIndexKeys h1)
  · exact List.mem_of_mem_filter h2

/-- Invariant of the grouping fold: every accumulated section holds
exactly the already-processed assets of that section, in order. -/
lemma groupAssetsAux_content :
    ∀ (assets : List Asset) (acc : List (String × List Asset))
      (pref : List Asset),
      (∀ p ∈ acc, p.2 = pref.filter (fun a => a.sectionName = p.1)) →
      (∀ s, (∃ p ∈ acc, p.1 = s) ↔ ∃ a ∈ pref, a.sectionName = s) →
      ∀ p ∈ groupAssetsAux acc assets,
        p.2 = (pref ++ assets).filter (fun a => a.sectionName = p.1) := by
  intro assets
  induction assets with
  | nil =>
    intro acc pref h1 _h2 p hp
    rw [List.append_nil]
    exact h1 p hp
  | cons a rest ih =>
    intro acc pref h1 h2 p hp
    have hh1 : ∀ q ∈ upsertAsset acc a,
        q.2 = (pref ++ [a]).filter (fun x => x.sectionName = q.1) := by
      intro q hq
      unfold upsertAsset at hq
      by_cases hany : acc.any (fun p => p.1 = a.sectionName)
      · rw [if_pos hany] at hq
        obtain ⟨r, hr, rfl⟩ := List.mem_map.mp hq
        by_cases hr1 : r.1 = a.sectionName
        · simp only [if_pos hr1, List.filter_append, ← h1 r hr]
          simp [hr1.symm]
        · simp only [if_neg hr1, List.filter_append, ← h1 r hr]
          have : ¬(a.sectionName = r.1) := fun hcon => hr1 hcon.symm
          simp [this]
      · rw [if_neg hany] at hq
        rcases List.mem_append.mp hq with hq1 | hq2
        · have hne : ¬(a.sectionName = q.1) := by
            intro heq
            exact hany (List.any_eq_true.mpr ⟨q, hq1, by simp [heq.symm]⟩)
          simp only [List.filter_append, ← h1 q hq1]
          simp [hne]
        · simp only [List.mem_singleton] at hq2
          subst hq2
          have hpref : pref.filter
              (fun x => x.sectionName = a.sectionName) = [] := by
            rw [List.filter_eq_nil_iff]
            intro x hx
            simp only [decide_eq_true_eq]
            intro heq
            obtain ⟨r, hr, hr1⟩ := (h2 a.sectionName).mpr ⟨x, hx, heq⟩
            exact hany (List.any_eq_true.mpr ⟨r, hr, by simp [hr1]⟩)
          simp [List.filter_append, hpref]
    have hh2 : ∀ s, (∃ q ∈ upsertAsset acc a, q.1 = s) ↔
        ∃ x ∈ pref ++ [a], x.sectionName = s := by
      intro s
      have hfst : ∀ r : String × List Asset,
          (if r.1 = a.sectionName then (r.1, r.2 ++ [a]) else r).1 = r.1 :=
        fun r => by split <;> rfl
      unfold upsertAsset
      by_cases hany : acc.any (fun p => p.1 = a.sectionName)
      · rw [if_pos hany]
        simp only [List.mem_map, List.mem_append, List.mem_singleton]
        constructor
        · rintro ⟨q, ⟨r, hr, rfl⟩, hq1⟩
          rw [hfst r] at hq1
          exact ((h2 s).mp ⟨r, hr, hq1⟩).imp
            (fun x hx => ⟨Or.inl hx.1, hx.2⟩)
        · rintro ⟨x, hx | rfl, hxs⟩
          · obtain ⟨r, hr, hr1⟩ := (h2 s).mpr ⟨x, hx, hxs⟩
            exact ⟨_, ⟨r, hr, rfl⟩, (hfst r).trans hr1⟩
          · obtain ⟨r, hr, hr1⟩ := List.any_eq_true.mp hany
            simp only [decide_eq_true_eq] at hr1
            exact ⟨_, ⟨r, hr, rfl⟩, (hfst r).trans (hr1.trans hxs)⟩
      · rw [if_neg hany]
        simp only [List.mem_append, List.mem_singleton]
        constructor
        · rintro ⟨q, hq | rfl, hq1⟩
          · exact ((h2 s).mp ⟨q, hq, hq1⟩).imp
              (fun x hx => ⟨Or.inl hx.1, hx.2⟩)
          · exact ⟨a, Or.inr rfl, hq1⟩
        · rintro ⟨x, hx | rfl, hxs⟩
          · obtain ⟨r, hr, hr1⟩ := (h2 s).mpr ⟨x, hx, hxs⟩
            exact ⟨r, Or.inl hr, hr1⟩
          · exact ⟨(x.sectionName, [x]), Or.inr rfl, hxs⟩
    have hmain := ih (upsertAsset acc a) (pref ++ [a]) hh1 hh2 p hp
    simpa using hmain

/-- Invariant of the grouping fold: the object's property keys appear in
first-occurrence order of the processed sections. -/
lemma groupAssetsAux_keys :
    ∀ (assets : List Asset) (acc : List (String × List Asset)),
      (groupAssetsAux acc assets).map Prod.fst =
        firstOccAux (acc.map Prod.fst)
          (assets.map (fun a => a.sectionName)) := by
  intro assets
  induction assets with
  | nil => intro acc; rfl
  | cons a rest ih =>
    intro acc
    have hstep : (upsertAsset acc a).map Prod.fst =
        if a.sectionName ∈ acc.map Prod.fst then acc.map Prod.fst
        else acc.map Prod.fst ++ [a.sectionName] := by
      unfold upsertAsset
      by_cases hany : acc.any (fun p => p.1 = a.sectionName)
      · obtain ⟨r, hr, hr1⟩ := List.any_eq_true.mp hany
        simp only [decide_eq_true_eq] at hr1
        rw [if_pos hany, if_pos (List.mem_map.mpr ⟨r, hr, hr1⟩)]
        rw [List.map_map]
        apply List.map_congr_left
        intro q _hq
        by_cases h : q.1 = a.sectionName <;> simp [h]
      · have hc : ¬(a.sectionName ∈ acc.map Prod.fst) := by
          intro hmem
          obtain ⟨r, hr, hr1⟩ := List.mem_map.mp hmem
          exact hany (List.any_eq_true.mpr ⟨r, hr, by simp [hr1]⟩)
        rw [if_neg hany, if_neg hc]
        simp
    calc (groupAssetsAux acc (a :: rest)).map Prod.fst
        = (groupAssetsAux (upsertAsset acc a) rest).map Prod.fst := rfl
      _ = firstOccAux ((upsertAsset acc a).map Prod.fst)
            (rest.map (fun a => a.sectionName)) := ih _
      _ = firstOccAux (acc.map Prod.fst)
            ((a :: rest).map (fun a => a.sectionName)) := by
          rw [hstep]
          rfl

/-- Every name in a `firstOccAux` result comes from the seed accumulator
or the traversed list. -/
lemma mem_firstOccAux :
    ∀ (l acc : List String) (s : String),
      s ∈ firstOccAux acc l → s ∈ acc ∨ s ∈ l := by
  intro l
  induction l with
  | nil =>
    intro acc s h
    exact Or.inl (by simpa [firstOccAux] using h)
  | cons t rest ih =>
    intro acc s h
    have h2 := ih (if t ∈ acc then acc else acc ++ [t]) s h
    rcases h2 with h3 | h3
    · by_cases ht : t ∈ acc
      · rw [if_pos ht] at h3
        exact Or.inl h3
      · rw [if_neg ht] at h3
        rcases List.mem_append.mp h3 with h4 | h4
        · exact Or.inl h4
        · simp only [List.mem_singleton] at h4
          subst h4
          exact Or.inr (List.mem_cons_self _ _)
    · exact Or.inr (List.mem_cons_of_mem _ h3)

/-- Claim C8 (amended): the grouped admin read preserves the Store's
return order within every section; and provided no section name is an
ECMAScript array-index string, the sections are iterated in insertion
order of each section's first occurrence.  (Array-index-like names are
hoisted first in ascending numeric order by `Object.entries`, refuting
the unconditional insertion-order claim.) -/
theorem grouped_read_order (assets : List Asset) :
    (∀ p ∈ loadAdminUIAssetsGroups assets,
      p.2 = assets.filter (fun a => a.sectionName = p.1)) ∧
    ((∀ a ∈ assets, isArrayIndex a.sectionName = false) →
      (loadAdminUIAssetsGroups assets).map Prod.fst =
        firstOccurrences (assets.map (fun a => a.sectionName))) := by
  constructor
  · intro p hp
    have hp2 : p ∈ groupAssets assets := mem_jsObjectEntries hp
    have hcon := groupAssetsAux_content assets [] []
      (by intro q hq; simp at hq) (by intro s; simp) p hp2
    simpa using hcon
  · intro hnone
    have hkeys : (groupAssets assets).map Prod.fst =
        firstOccurrences (assets.map (fun a => a.sectionName)) := by
      have hk := groupAssetsAux_keys assets []
      simpa [groupAssets, firstOccurrences] using hk
    have hobj : ∀ p ∈ groupAssets assets, isArrayIndex p.1 = false := by
      intro p hp
      have h1 : p.1 ∈ (groupAssets assets).map Prod.fst :=
        List.mem_map.mpr ⟨p, hp, rfl⟩
      rw [hkeys] at h1
      rcases mem_firstOccAux _ [] _ h1 with h3 | h3
      · simp at h3
      · obtain ⟨a, ha, heq⟩ := List.mem_map.mp h3
        rw [← heq]
        exact hnone a ha
    have hfilter1 : (groupAssets assets).filter
        (fun p => isArrayIndex p.1) = [] := by
      rw [List.filter_eq_nil_iff]
      intro p hp
      simp [hobj p hp]
    have hfilter2 : (groupAssets assets).filter
        (fun p => !isArrayIndex p.1) = groupAssets assets := by
      rw [List.filter_eq_self]
      intro p hp
      simp [hobj p hp]
    unfold loadAdminUIAssetsGroups jsObjectEntries
    rw [hfilter1, hfilter2,
      show sortIndexKeys ([] : List (String × List Asset)) = [] from rfl,
      List.nil_append, hkeys]

/-- Counterexample to C8 as stated: with sections first occurring in the
order `"1"` then `"0"`, `Object.entries` enumerates `"0"` before `"1"`
(array-index keys ascending), not in insertion order of first
occurrence. -/
theorem grouped_read_counterexample :
    (loadAdminUIAssetsGroups
        [{ key := "k1", sectionName := "1", label := "L1",
           description := none, asset_type := "text",
           value := JSVal.undef },
         { key := "k0", sectionName := "0", label := "L0",
           description := none, asset_type := "text",
           value := JSVal.undef }]).map Prod.fst ≠
      firstOccurrences
        (([{ key := "k1", sectionName := "1", label := "L1",
             description := none, asset_type := "text",
             value := JSVal.undef },
           { key := "k0", sectionName := "0", label := "L0",
             description := none, asset_type := "text",
             value := JSVal.undef }] : List Asset).map
          (fun a => a.sectionName)) := by
  decide

/-- Witness for C8 (amended) on non-numeric sections `hero`, `footer`,
`hero`: the grouped iteration order is the first-occurrence order. -/
theorem grouped_read_witness :
    (loadAdminUIAssetsGroups
        [{ key := "h1", sectionName := "hero", label := "",
           description := none, asset_type := "text",
           value := JSVal.undef },
         { key := "f1", sectionName := "footer", label := "",
           description := none, asset_type := "text",
           value := JSVal.undef },
         { key := "h2", sectionName := "hero", label := "",
           description := none, asset_type := "text",
           value := JSVal.undef }]).map Prod.fst =
      firstOccurrences
        (([{ key := "h1", sectionName := "hero", label := "",
             description := none, asset_type := "text",
             value := JSVal.undef },
           { key := "f1", sectionName := "footer", label := "",
             description := none, asset_type := "text",
             value := JSVal.undef },
           { key := "h2", sectionName := "hero", label := "",
             description := none, asset_type := "text",
             value := JSVal.undef }] : List Asset).map
          (fun a => a.sectionName)) :=
  (grouped_read_order _).2 (by decide)

/-- Claim C10 (amended): the batch save collects every document element
(of any tag, not only inputs — including the editor's own `uia-row-…`
container divs) whose id starts with `uia-`, derives the key by stripping
the leftmost `uia-`, silently drops entries whose derived key contains
`preview` (so an asset whose key contains `preview` is never written),
and the success toast reports the count of all collected entries. -/
theorem batch_save_key_filtering (doc : List DomElem) :
    (∀ k v, (k, v) ∈ collectUpdates doc ↔
      ∃ el ∈ doc, startsWithStr el.id "uia-" = true ∧
        replaceFirst el.id "uia-" "" = k ∧ el.value = v ∧
        includesStr k "preview" = false) ∧
    (∀ k, includesStr k "preview" = true →
      ∀ v, (k, v) ∉ collectUpdates doc) ∧
    (∀ cache, saveAllUIAssets doc true cache =
      { cache := none, invalidations := 1,
        toasts := [Toast.savedMany (collectUpdates doc).length] }) := by
  have hA : ∀ k v, (k, v) ∈ collectUpdates doc ↔
      ∃ el ∈ doc, startsWithStr el.id "uia-" = true ∧
        replaceFirst el.id "uia-" "" = k ∧ el.value = v ∧
        includesStr k "preview" = false := by
    intro k v
    unfold collectUpdates
    rw [List.mem_filterMap]
    constructor
    · rintro ⟨el, hel, hsome⟩
      obtain ⟨heldoc, hstart⟩ := List.mem_filter.mp hel
      cases hing : includesStr (replaceFirst el.id "uia-" "") "preview"
      · simp only [hing, Bool.false_eq_true, if_false,
          Option.some.injEq, Prod.mk.injEq] at hsome
        exact ⟨el, heldoc, hstart, hsome.1, hsome.2, hsome.1 ▸ hing⟩
      · simp [hing] at hsome
    · rintro ⟨el, heldoc, hstart, hk, hv, hinc⟩
      refine ⟨el, List.mem_filter.mpr ⟨heldoc, hstart⟩, ?_⟩
      show (if includesStr (replaceFirst el.id "uia-" "") "preview" = true
          then none
          else some (replaceFirst el.id "uia-" "", el.value)) = some (k, v)
      rw [hk, hinc, hv]
      simp
  refine ⟨hA, fun k hk v hmem => ?_, fun cache => rfl⟩
  obtain ⟨el, _, _, _, _, hfalse⟩ := (hA k v).mp hmem
  rw [hk] at hfalse
  cases hfalse

/-- Counterexample to C10 as stated: on the editor's own rendered
fragment for the single text asset `greeting`, the batch also contains
the non-input row container (`row-greeting`), and the success toast
reports 2 — not the count (1) of collected non-dropped inputs. -/
theorem batch_save_counterexample :
    collectUpdates editorDocGreeting =
      [("row-greeting", JSVal.undef), ("greeting", JSVal.str "Hi")] ∧
    (saveAllUIAssets editorDocGreeting true none).toasts =
      [Toast.savedMany 2] ∧
    (editorDocGreeting.filter (fun el =>
      el.tag = "INPUT" ∧ startsWithStr el.id "uia-" = true ∧
        includesStr (replaceFirst el.id "uia-" "") "preview" =
          false)).length = 1 ∧
    (saveAllUIAssets editorDocGreeting true none).toasts ≠
      [Toast.savedMany (editorDocGreeting.filter (fun el =>
        el.tag = "INPUT" ∧ startsWithStr el.id "uia-" = true ∧
          includesStr (replaceFirst el.id "uia-" "") "preview" =
            false)).length] := by
  refine ⟨rfl, rfl, rfl, ?_⟩
  decide

/-- Witness for C10 (amended): on the editor fragment, the row-div entry
is in the batch, and a `preview`-containing key can never be. -/
theorem batch_save_key_filtering_witness :
    ("row-greeting", JSVal.undef) ∈ collectUpdates editorDocGreeting ∧
    ("preview-logo", JSVal.str "x") ∉ collectUpdates editorDocGreeting :=
  ⟨((batch_save_key_filtering editorDocGreeting).1
      "row-greeting" JSVal.undef).mpr
    ⟨{ id := "uia-row-greeting", tag := "DIV", value := JSVal.undef },
      by decide, rfl, rfl, rfl, rfl⟩,
   (batch_save_key_filtering editorDocGreeting).2.1
     "preview-logo" (by decide) (JSVal.str "x")⟩

end MarketUI
